import Mathlib

/-!
Shallow embedding of the CppDiFactory dependency-injection engine
(src/include/CppDiFactory.h) and proofs about its registration,
validation and resolution behaviour.

Modelling conventions:
* A type token (the size_t value of type_id<T>) is a natural number.
* Instances (shared_ptr values) are identified by natural-number ids,
  allocated from a counter threaded through production; make_shared
  allocates a fresh id.
* The registry _registeredTypes is an association list from token to
  entry; each entry carries the registration kind together with the
  mutable members _validated, _hasSiprDependency and (for singleton
  registrations) the weak_ptr _instance modelled as an Option Id.
* C++ exceptions are modelled by returning the mutated state together
  with an Except value, so state changes made before a throw persist,
  as they do in the source.
* Where C++ leaves the evaluation order of pack-expanded function
  arguments unspecified, the model fixes left-to-right order.
* weak_ptr::lock is modelled by a predicate alive : Id -> Bool giving
  the ids currently kept alive by external strong references.
-/

namespace CppDiFactory

/-- A type token: the process-wide unique id returned by type_id<T>. -/
abbrev Token := Nat

/-- An instance id: identifies one object produced by make_shared or
supplied externally. -/
abbrev Id := Nat

/-- The six registration variants of the source. -/
inductive RegKind where
  /-- ClassRegistration<Class, Dependencies...> -/
  | classReg (deps : List Token)
  /-- InstanceRegistration<Class>, wrapping a pre-built instance -/
  | instanceReg (inst : Id)
  /-- SingletonRegistration<Class, Dependencies...> -/
  | singletonReg (deps : List Token)
  /-- SingleInstancePerRequestRegistration<Class, Dependencies...> -/
  | siprReg (deps : List Token)
  /-- InstanceProvidedAtRequestRegistration<Class> -/
  | iparReg
  /-- InterfaceRegistration<Interface, Class>, aliasing the target token -/
  | interfaceReg (target : Token)
deriving DecidableEq, Repr

/-- One registration object: the kind plus the mutable members of
AbstractRegistration (_validated, _hasSiprDependency) and, for
singletons, the weak_ptr _instance. -/
structure Entry where
  kind : RegKind
  validated : Bool
  hasSipr : Bool
  weakInst : Option Id
deriving DecidableEq, Repr

/-- A registration object built by a zero-argument make_shared call
(registerClass, registerSingleton, registerInstancePerRequest,
registerInstanceProvidedAtRequest, registerInterface): with no
constructor arguments make_shared value-initializes, zeroing
_validated and _hasSiprDependency.  Not used for registerInstance,
whose object is built differently - see mkInstanceEntry. -/
def mkEntry (k : RegKind) : Entry := ⟨k, false, false, none⟩

/-- The registration object built by registerInstance: make_shared is
given the instance argument, so the user-provided InstanceRegistration
constructor runs; it initializes only _instance and leaves _validated
and _hasSiprDependency uninitialized.  The model exposes those two
indeterminate bits as explicit parameters instead of fixing them. -/
def mkInstanceEntry (inst : Id) (v s : Bool) : Entry := ⟨.instanceReg inst, v, s, none⟩

/-- The registry _registeredTypes, an association list token -> entry. -/
abbrev Registry := List (Token × Entry)

/-- findRegistration<T>: first entry stored under the token, if any. -/
def findReg : Registry → Token → Option Entry
  | [], _ => none
  | p :: r, t => if p.1 = t then some p.2 else findReg r t

/-- Lookup in a GenericPtrMap (unordered_map<size_t, GenericPtr>). -/
def lookupTok : List (Token × Id) → Token → Option Id
  | [], _ => none
  | p :: m, t => if p.1 = t then some p.2 else lookupTok m t

/-- operator[] assignment on a GenericPtrMap: replace the binding when
the key is present, append it otherwise. -/
def mapAssign (m : List (Token × Id)) (t : Token) (i : Id) : List (Token × Id) :=
  if (lookupTok m t).isSome then
    m.map (fun p => if p.1 = t then (t, i) else p)
  else
    m ++ [(t, i)]

/-- invalidate() called on every entry: resets _validated and
_hasSiprDependency; the singleton weak pointer is untouched. -/
def invalidateAll (r : Registry) : Registry :=
  r.map (fun p => (p.1, { p.2 with validated := false, hasSipr := false }))

/-- Replace the entry stored under a token (the map value assignment
in addRegistration when insert found an existing key). -/
def replaceEntry (r : Registry) (t : Token) (e : Entry) : Registry :=
  r.map (fun p => if p.1 = t then (t, e) else p)

/-- Store a validation result: sets _validated := true and
_hasSiprDependency := flag on the entry of the given token. -/
def setValidated : Registry → Token → Bool → Registry
  | [], _, _ => []
  | p :: r, t, f =>
    (if p.1 = t then (p.1, { p.2 with validated := true, hasSipr := f }) else p)
      :: setValidated r t f

/-- Store the singleton weak pointer _instance := instance. -/
def setWeak : Registry → Token → Id → Registry
  | [], _, _ => []
  | p :: r, t, j =>
    (if p.1 = t then (p.1, { p.2 with weakInst := some j }) else p) :: setWeak r t j

/-- Whether a token is registered. -/
def hasToken (r : Registry) (t : Token) : Bool := (findReg r t).isSome

/-- DiFactory::addRegistration<T>: receives the registration object the
caller constructed and inserts it; when the token already existed, the
stored entry is replaced and every entry is invalidated (the
replacement included, since the loop runs over the whole map); a fresh
insert invalidates nothing and stores the object as constructed. -/
def addRegistration (r : Registry) (t : Token) (e : Entry) : Registry :=
  if hasToken r t then invalidateAll (replaceEntry r t e)
  else r ++ [(t, e)]

/-- DiFactory::unregister<T>: erase the token when present, then
invalidate every remaining entry (this runs in either case). -/
def unregisterTok (r : Registry) (t : Token) : Registry :=
  invalidateAll (r.filter (fun p => p.1 ≠ t))

/-- The error conditions of the engine. outOfFuel marks exhaustion of
the recursion budget of the model and corresponds to a C++ execution
that is still recursing; illFormedCall marks a call that C++ overload
resolution rejects (the program does not compile). -/
inductive DiError where
  | unregisteredType
  | cyclicDependency
  | illegalLifetimeNesting
  | missingExternalInstance
  | ineligibleExternalSupply
  | illFormedCall
  | outOfFuel
deriving DecidableEq, Repr

/-- The dependency walk of ClassRegistration::isValid: validate each
dependency left to right.  Each call writes its result into the
by-reference flag, so the flag that survives is the one of the last
dependency (the incoming flag survives only for an empty list) -
matching the assignment (not OR) in the source. -/
def validateDepsAux (v : Token → Registry → Registry × Except DiError Bool) :
    List Token → Bool → Registry → Registry × Except DiError Bool
  | [], flagIn, r => (r, .ok flagIn)
  | d :: rest, _, r =>
    match v d r with
    | (r', .error e) => (r', .error e)
    | (r', .ok f) => validateDepsAux v rest f r'

/-- The virtual isValid of each registration variant, parameterized by
the validator used for dependency entries (AbstractRegistration::
validate with the current root).  flagIn is the current value of the
by-reference _hasSiprDependency member. -/
def isValidW (v : Token → Registry → Registry × Except DiError Bool) :
    RegKind → Bool → Registry → Registry × Except DiError Bool
  | .classReg deps, flagIn, r => validateDepsAux v deps flagIn r
  | .instanceReg _, flagIn, r => (r, .ok flagIn)
  | .singletonReg deps, flagIn, r =>
    match validateDepsAux v deps flagIn r with
    | (r', .error e) => (r', .error e)
    | (r', .ok f) =>
      if f then (r', .error .illegalLifetimeNesting) else (r', .ok f)
  | .siprReg deps, flagIn, r =>
    match validateDepsAux v deps flagIn r with
    | (r', .error e) => (r', .error e)
    | (r', .ok _) => (r', .ok true)
  | .iparReg, flagIn, r => (r, .ok flagIn)
  | .interfaceReg tgt, _, r => v tgt r

/-- AbstractRegistration::validate(diFactory, root, hasSiprDependency)
reached through findRegistration for a dependency token: missing token
throws; an entry equal to the walk root throws circular dependency; an
already validated entry reports its cached flag; otherwise isValid runs
and on success the result is memoized.  The Nat argument is recursion
fuel: the source recursion has no such bound and outOfFuel models an
execution that never returns. -/
def validateTok : Nat → Token → Token → Registry → Registry × Except DiError Bool
  | 0, _, _, r => (r, .error .outOfFuel)
  | fuel + 1, root, t, r =>
    match findReg r t with
    | none => (r, .error .unregisteredType)
    | some e =>
      if t = root then (r, .error .cyclicDependency)
      else if e.validated then (r, .ok e.hasSipr)
      else
        match isValidW (fun d r' => validateTok fuel root d r') e.kind e.hasSipr r with
        | (r', .error er) => (r', .error er)
        | (r', .ok flag) => (setValidated r' t flag, .ok flag)

/-- findRegistration<T> followed by the single-argument
AbstractRegistration::validate(diFactory): the entry itself is the walk
root and is not compared against itself at the top. -/
def validateRoot : Nat → Token → Registry → Registry × Except DiError Unit
  | 0, _, r => (r, .error .outOfFuel)
  | fuel + 1, t, r =>
    match findReg r t with
    | none => (r, .error .unregisteredType)
    | some e =>
      if e.validated then (r, .ok ())
      else
        match isValidW (fun d r' => validateTok fuel t d r') e.kind e.hasSipr r with
        | (r', .error er) => (r', .error er)
        | (r', .ok flag) => (setValidated r' t flag, .ok ())

/-- DiFactory::validate iterating over the registered tokens; the first
thrown error stops the loop. -/
def validateAllGo (fuel : Nat) : List Token → Registry → Registry × Except DiError Unit
  | [], r => (r, .ok ())
  | t :: ts, r =>
    match validateRoot fuel t r with
    | (r', .error e) => (r', .error e)
    | (r', .ok _) => validateAllGo fuel ts r'

/-- DiFactory::validate (validateAll of the spec). -/
def validateAll (fuel : Nat) (r : Registry) : Registry × Except DiError Unit :=
  validateAllGo fuel (r.map (fun p => p.1)) r

/-- weak_ptr::lock: yields the stored id only while some external
holder keeps it alive. -/
def liveWeak (alive : Id → Bool) : Option Id → Option Id
  | some i => if alive i then some i else none
  | none => none

/-- The state threaded through a resolution: the registry (singleton
weak pointers mutate), the per-request typeInstanceMap, the allocation
counter for make_shared, and an instrumentation trace recording every
successful resolution of a registered token as (token, id). -/
structure PState where
  reg : Registry
  sess : List (Token × Id)
  ctr : Id
  trace : List (Token × Id)
deriving DecidableEq, Repr

/-- Resolve each constructor dependency left to right
(ClassRegistration::getInstance resolving Dependencies...). -/
def produceDepsAux (p : Token → PState → PState × Except DiError Id) :
    List Token → PState → PState × Except DiError Unit
  | [], st => (st, .ok ())
  | d :: rest, st =>
    match p d st with
    | (st', .error e) => (st', .error e)
    | (st', .ok _) => produceDepsAux p rest st'

/-- getInstance dispatched on the registration kind of a token
(findRegistration followed by the virtual getInstance).  Class builds
its dependencies then allocates a fresh instance; Instance returns the
owned instance; Singleton reuses the weak pointer while alive and
rebuilds (then re-points the weak pointer) otherwise; SIPR consults the
per-request map, building and caching on a miss; InstanceProvidedAt-
Request requires a per-request map entry; Interface forwards to its
target.  Every successful resolution appends a trace event. -/
def produceTok (alive : Id → Bool) : Nat → Token → PState → PState × Except DiError Id
  | 0, _, st => (st, .error .outOfFuel)
  | fuel + 1, t, st =>
    match findReg st.reg t with
    | none => (st, .error .unregisteredType)
    | some e =>
      match e.kind with
      | .classReg deps =>
        match produceDepsAux (fun d s => produceTok alive fuel d s) deps st with
        | (st', .error er) => (st', .error er)
        | (st', .ok _) =>
          ({ st' with ctr := st'.ctr + 1,
                      trace := st'.trace ++ [(t, st'.ctr)] }, .ok st'.ctr)
      | .instanceReg inst =>
        ({ st with trace := st.trace ++ [(t, inst)] }, .ok inst)
      | .singletonReg deps =>
        match liveWeak alive e.weakInst with
        | some i => ({ st with trace := st.trace ++ [(t, i)] }, .ok i)
        | none =>
          match produceDepsAux (fun d s => produceTok alive fuel d s) deps st with
          | (st', .error er) => (st', .error er)
          | (st', .ok _) =>
            ({ st' with reg := setWeak st'.reg t st'.ctr,
                        ctr := st'.ctr + 1,
                        trace := st'.trace ++ [(t, st'.ctr)] }, .ok st'.ctr)
      | .siprReg deps =>
        match lookupTok st.sess t with
        | some i => ({ st with trace := st.trace ++ [(t, i)] }, .ok i)
        | none =>
          match produceDepsAux (fun d s => produceTok alive fuel d s) deps st with
          | (st', .error er) => (st', .error er)
          | (st', .ok _) =>
            ({ st' with sess := mapAssign st'.sess t st'.ctr,
                        ctr := st'.ctr + 1,
                        trace := st'.trace ++ [(t, st'.ctr)] }, .ok st'.ctr)
      | .iparReg =>
        match lookupTok st.sess t with
        | some i => ({ st with trace := st.trace ++ [(t, i)] }, .ok i)
        | none => (st, .error .missingExternalInstance)
      | .interfaceReg tgt =>
        match produceTok alive fuel tgt st with
        | (st', .error er) => (st', .error er)
        | (st', .ok i) => ({ st' with trace := st'.trace ++ [(t, i)] }, .ok i)

/-- checkAsParam: only the SIPR and InstanceProvidedAtRequest variants
override the base-class veto. -/
def checkAsParamOk : RegKind → Bool
  | .siprReg _ => true
  | .iparReg => true
  | _ => false

/-- The single-instance RegisterInstanceForRequest overload: look up
the registration for the static type of the instance, run checkAsParam,
then store the instance in the per-request map under that token. -/
def registerOneForRequest (r : Registry) (m : List (Token × Id)) (t : Token) (i : Id) :
    Except DiError (List (Token × Id)) :=
  match findReg r t with
  | none => .error .unregisteredType
  | some e =>
    if checkAsParamOk e.kind then .ok (mapAssign m t i)
    else .error .ineligibleExternalSupply

/-- The variadic RegisterInstanceForRequest helpers as written in the
source.  The recursive overload forwards the first instance with the
explicit template arguments of the remaining pack
(RegisterInstanceForRequest<Instances...>(instanceMap, instance)), so:
an empty call does nothing; a one-instance call registers the instance
under its own token; a two-instance call re-registers the first
instance under the second token, which C++ overload resolution accepts
only when the two static types coincide; with three or more instances,
or two instances of unconvertible types, no overload is viable and the
program is ill-formed (modelled as the illFormedCall error). -/
def registerForRequest (r : Registry) :
    List (Token × Id) → List (Token × Id) → Except DiError (List (Token × Id))
  | [], m => .ok m
  | [(t, i)], m => registerOneForRequest r m t i
  | [(t1, i1), (t2, i2)], m =>
    if t1 = t2 then
      match registerOneForRequest r m t2 i1 with
      | .error e => .error e
      | .ok m1 => registerOneForRequest r m1 t2 i2
    else .error .illFormedCall
  | _ :: _ :: _ :: _, _ => .error .illFormedCall

/-- Result of a top-level getInstance call: the registry afterwards,
the allocation counter afterwards, the resolution trace, and the
produced instance or the thrown error. -/
structure GInstResult where
  reg : Registry
  ctr : Id
  trace : List (Token × Id)
  res : Except DiError Id
deriving Repr

/-- DiFactory::getInstance<T, Instances...>: find the registration
(throwing when the token is unknown), validate it as its own walk root,
create the per-request map and register the supplied instances, then
produce the instance. -/
def getInstanceTop (alive : Id → Bool) (fuel : Nat) (t : Token)
    (supplied : List (Token × Id)) (r : Registry) (ctr0 : Id) : GInstResult :=
  match validateRoot fuel t r with
  | (r1, .error e) => ⟨r1, ctr0, [], .error e⟩
  | (r1, .ok _) =>
    match registerForRequest r1 supplied [] with
    | .error e => ⟨r1, ctr0, [], .error e⟩
    | .ok m =>
      match produceTok alive fuel t ⟨r1, m, ctr0, []⟩ with
      | (st, .error e) => ⟨st.reg, st.ctr, st.trace, .error e⟩
      | (st, .ok i) => ⟨st.reg, st.ctr, st.trace, .ok i⟩

/-- Projection of a registry through an entry projection, used to state
frame properties. -/
def projReg {β : Type} (f : Entry → β) (r : Registry) : List (Token × β) :=
  r.map (fun p => (p.1, f p.2))

/-- The immutable bindings: every token together with its registration
kind. -/
def shape (r : Registry) : List (Token × RegKind) := projReg (fun e => e.kind) r

/-- Everything validation must leave unchanged: bindings and the
singleton weak pointers. -/
def vframe (r : Registry) : List (Token × (RegKind × Option Id)) :=
  projReg (fun e => (e.kind, e.weakInst)) r

/-- Everything production must leave unchanged: bindings and the
validation caches. -/
def pframe (r : Registry) : List (Token × (RegKind × Bool × Bool)) :=
  projReg (fun e => (e.kind, e.validated, e.hasSipr)) r

/-- The dependency tokens a registration recurses into. -/
def entryDeps : RegKind → List Token
  | .classReg deps => deps
  | .singletonReg deps => deps
  | .siprReg deps => deps
  | .interfaceReg tgt => [tgt]
  | .instanceReg _ => []
  | .iparReg => []

/-- A rank function witnessing that the dependency graph of a registry
is acyclic: every dependency edge strictly decreases the rank. -/
def RankOK (rank : Token → Nat) (r : Registry) : Prop :=
  ∀ t e, findReg r t = some e → ∀ d ∈ entryDeps e.kind, rank d < rank t

/-- The token is registered as SingleInstancePerRequest. -/
def SiprTok (r : Registry) (u : Token) : Prop :=
  ∃ e deps, findReg r u = some e ∧ e.kind = .siprReg deps

/-- Relation between the states before and after a production step:
the registry frame is preserved, the counter grows, session bindings
persist, new session bindings carry ids allocated in between, trace
events persist, and every trace event of a SIPR token agrees with the
final session binding of that token. -/
def Inv (a b : PState) : Prop :=
  pframe b.reg = pframe a.reg ∧
  a.ctr ≤ b.ctr ∧
  (∀ u j, lookupTok a.sess u = some j → lookupTok b.sess u = some j) ∧
  (∀ u j, lookupTok b.sess u = some j →
     lookupTok a.sess u = some j ∨ (a.ctr ≤ j ∧ j < b.ctr)) ∧
  (∀ ev, ev ∈ a.trace → ev ∈ b.trace) ∧
  (∀ u j, SiprTok a.reg u → (u, j) ∈ b.trace →
     (u, j) ∈ a.trace ∨ lookupTok b.sess u = some j)

end CppDiFactory

namespace CppDiFactory

/-! Concrete scenarios used by the claims. -/

/-- Liveness environment with no external holders. -/
def aliveNone : Id → Bool := fun _ => false

/-- Liveness environment in which only instance 0 is held. -/
def aliveZero : Id → Bool := fun j => j == 0

/-- Singleton token of the lifetime-nesting scenario. -/
def c1S : Token := 0

/-- SIPR token of the lifetime-nesting scenario. -/
def c1P : Token := 1

/-- Dependency-free class token of the lifetime-nesting scenario. -/
def c1C : Token := 2

/-- Singleton S with dependencies [P, C]: P per-request-shared, C a
plain class.  The SIPR entry is not the last declared dependency. -/
def c1Reg : Registry :=
  [(c1S, mkEntry (.singletonReg [c1P, c1C])),
   (c1P, mkEntry (.siprReg [])),
   (c1C, mkEntry (.classReg []))]

/-- The same singleton with the dependency order reversed: [C, P]. -/
def c1RegRev : Registry :=
  [(c1S, mkEntry (.singletonReg [c1C, c1P])),
   (c1P, mkEntry (.siprReg [])),
   (c1C, mkEntry (.classReg []))]

/-- Tokens of the non-root-cycle scenario. -/
def c2A : Token := 0

/-- Second token of the non-root-cycle scenario. -/
def c2B : Token := 1

/-- Third token of the non-root-cycle scenario. -/
def c2C : Token := 2

/-- A depends on B, B depends on C, C depends on B: a cycle that does
not pass through the walk root A. -/
def c2Reg : Registry :=
  [(c2A, mkEntry (.classReg [c2B])),
   (c2B, mkEntry (.classReg [c2C])),
   (c2C, mkEntry (.classReg [c2B]))]

/-- Token A of the two-cycle scenario. -/
def c8A : Token := 0

/-- Token B of the two-cycle scenario. -/
def c8B : Token := 1

/-- A depends on B and B depends on A. -/
def c8Reg : Registry :=
  [(c8A, mkEntry (.classReg [c8B])), (c8B, mkEntry (.classReg [c8A]))]

/-- Concrete class token of the unregister scenario. -/
def c9A : Token := 0

/-- Interface token aliasing the class of the unregister scenario. -/
def c9IA : Token := 5

/-- Class A registered together with interface alias IA. -/
def c9Reg : Registry :=
  [(c9A, mkEntry (.classReg [])), (c9IA, mkEntry (.interfaceReg c9A))]

/-- The successful resolution of the alias before unregistering. -/
def c9Run : GInstResult := getInstanceTop aliveNone 10 c9IA [] c9Reg 0

/-- The registry after unregistering the concrete class A. -/
def c9Unreg : Registry := unregisterTok c9Run.reg c9A

/-- Class token of the external-supply scenario. -/
def c6C : Token := 0

/-- Externally provided token of the external-supply scenario. -/
def c6E : Token := 1

/-- Class C depending on the externally provided E. -/
def c6Reg : Registry :=
  [(c6C, mkEntry (.classReg [c6E])), (c6E, mkEntry .iparReg)]

/-- The registry of the external-supply scenario after validation. -/
def c6RegV : Registry :=
  [(c6C, ⟨.classReg [c6E], true, false, none⟩),
   (c6E, ⟨.iparReg, true, false, none⟩)]

/-- Token registered as Instance for the supply-eligibility check. -/
def c6I : Token := 3

/-- A registry holding one Instance registration; the indeterminate
cache members are instantiated with arbitrary values to show the
eligibility veto does not depend on them. -/
def c6RegI : Registry := [(c6I, mkInstanceEntry 42 true true)]

/-- Externally provided token of the multi-supply scenario. -/
def c7E : Token := 0

/-- SIPR token of the multi-supply scenario. -/
def c7P : Token := 1

/-- Class token of the multi-supply scenario. -/
def c7C : Token := 2

/-- Registry in which both supplied tokens accept request instances. -/
def c7Reg : Registry :=
  [(c7E, mkEntry .iparReg),
   (c7P, mkEntry (.siprReg [])),
   (c7C, mkEntry (.classReg [c7E]))]

/-- SIPR token of the per-request sharing scenario. -/
def c4P : Token := 0

/-- Root class token of the per-request sharing scenario, reaching the
SIPR token along two paths. -/
def c4R : Token := 1

/-- Class R depending twice on the per-request-shared P. -/
def c4Reg : Registry :=
  [(c4P, mkEntry (.siprReg [])), (c4R, mkEntry (.classReg [c4P, c4P]))]

/-- Token of the entry validated before the fresh insert. -/
def c3X : Token := 0

/-- Token freshly inserted afterwards. -/
def c3Y : Token := 1

/-- A registry whose single entry has been validated. -/
def c3V : Registry := (validateAll 10 [(c3X, mkEntry (.classReg []))]).1

/-- Singleton token of the weak-reuse scenario. -/
def c5T : Token := 3

/-- The singleton entry as it looks after a first resolution produced
instance 0: validated, weak pointer at 0. -/
def c5Entry : Entry := ⟨.singletonReg [], true, false, some 0⟩

/-- Registry after the first resolution of the singleton. -/
def c5Reg1 : Registry := [(c5T, c5Entry)]

/-- Production state at the start of a second resolution: counter 1,
empty session. -/
def st5a : PState := ⟨c5Reg1, [], 1, []⟩

/-! Helper lemmas about the registry and map primitives. -/

theorem findReg_projReg {β : Type} (f : Entry → β) :
    ∀ (r s : Registry), projReg f r = projReg f s →
      ∀ u, (findReg r u).map f = (findReg s u).map f := by
  intro r
  induction r with
  | nil =>
    intro s h u
    cases s with
    | nil => rfl
    | cons q s' => simp [projReg] at h
  | cons p r' ih =>
    intro s h u
    cases s with
    | nil => simp [projReg] at h
    | cons q s' =>
      simp only [projReg, List.map_cons, List.cons.injEq, Prod.mk.injEq] at h
      obtain ⟨⟨h1, h2⟩, h3⟩ := h
      by_cases hu : p.1 = u
      · rw [findReg, findReg, if_pos hu, if_pos (h1 ▸ hu)]
        simp [h2]
      · rw [findReg, findReg, if_neg hu, if_neg (h1 ▸ hu)]
        exact ih s' h3 u

theorem shape_eq_of_vframe {r s : Registry} (h : vframe r = vframe s) :
    shape r = shape s := by
  have hr : shape r = (vframe r).map (fun q => (q.1, q.2.1)) := by
    simp [shape, vframe, projReg, List.map_map]
  have hs : shape s = (vframe s).map (fun q => (q.1, q.2.1)) := by
    simp [shape, vframe, projReg, List.map_map]
  rw [hr, hs, h]

theorem shape_eq_of_pframe {r s : Registry} (h : pframe r = pframe s) :
    shape r = shape s := by
  have hr : shape r = (pframe r).map (fun q => (q.1, q.2.1)) := by
    simp [shape, pframe, projReg, List.map_map]
  have hs : shape s = (pframe s).map (fun q => (q.1, q.2.1)) := by
    simp [shape, pframe, projReg, List.map_map]
  rw [hr, hs, h]

theorem findReg_kind_congr {r s : Registry} (h : shape r = shape s) (u : Token) :
    (findReg r u).map (fun e => e.kind) = (findReg s u).map (fun e => e.kind) :=
  findReg_projReg (fun e => e.kind) r s h u

theorem RankOK_transport {rank : Token → Nat} {r s : Registry}
    (hs : shape r = shape s) (hr : RankOK rank r) : RankOK rank s := by
  intro t e he d hd
  have hc := findReg_kind_congr hs t
  rw [he] at hc
  cases hre : findReg r t with
  | none => rw [hre] at hc; simp at hc
  | some e' =>
    rw [hre] at hc
    simp only [Option.map_some', Option.some.injEq] at hc
    exact hr t e' hre d (by rw [hc]; exact hd)

theorem SiprTok_transport {r s : Registry} (hs : shape r = shape s) {u : Token}
    (h : SiprTok r u) : SiprTok s u := by
  obtain ⟨e, deps, he, hk⟩ := h
  have hc := findReg_kind_congr hs u
  rw [he] at hc
  cases hse : findReg s u with
  | none => rw [hse] at hc; simp at hc
  | some e' =>
    rw [hse] at hc
    simp only [Option.map_some', Option.some.injEq] at hc
    exact ⟨e', deps, hse, by rw [← hc, hk]⟩

theorem not_SiprTok {r : Registry} {u : Token} {e : Entry}
    (he : findReg r u = some e) (hk : ∀ deps, e.kind ≠ .siprReg deps) :
    ¬ SiprTok r u := by
  rintro ⟨e', deps, he', hk'⟩
  rw [he] at he'
  cases he'
  exact hk deps hk'

theorem vframe_setValidated (r : Registry) (t : Token) (f : Bool) :
    vframe (setValidated r t f) = vframe r := by
  induction r with
  | nil => rfl
  | cons p r' ih =>
    simp only [setValidated]
    by_cases h : p.1 = t
    · rw [if_pos h]
      simp only [vframe, projReg, List.map_cons, List.cons.injEq, true_and]
      exact ih
    · rw [if_neg h]
      simp only [vframe, projReg, List.map_cons, List.cons.injEq, true_and]
      exact ih

theorem pframe_setWeak (r : Registry) (t : Token) (j : Id) :
    pframe (setWeak r t j) = pframe r := by
  induction r with
  | nil => rfl
  | cons p r' ih =>
    simp only [setWeak]
    by_cases h : p.1 = t
    · rw [if_pos h]
      simp only [pframe, projReg, List.map_cons, List.cons.injEq, true_and]
      exact ih
    · rw [if_neg h]
      simp only [pframe, projReg, List.map_cons, List.cons.injEq, true_and]
      exact ih

theorem findReg_setWeak (r : Registry) (t : Token) (j : Id) :
    findReg (setWeak r t j) t = (findReg r t).map (fun e => { e with weakInst := some j }) := by
  induction r with
  | nil => rfl
  | cons p r' ih =>
    by_cases h : p.1 = t
    · simp [setWeak, findReg, h]
    · simp [setWeak, findReg, h, ih]

theorem lookupTok_append_some {m l : List (Token × Id)} {u : Token} {j : Id}
    (h : lookupTok m u = some j) : lookupTok (m ++ l) u = some j := by
  induction m with
  | nil => simp [lookupTok] at h
  | cons p m' ih =>
    by_cases hp : p.1 = u
    · rw [lookupTok, if_pos hp] at h
      simpa [lookupTok, hp] using h
    · rw [lookupTok, if_neg hp] at h
      simpa [lookupTok, hp] using ih h

theorem lookupTok_append_none {m : List (Token × Id)} {u : Token}
    (h : lookupTok m u = none) (l : List (Token × Id)) :
    lookupTok (m ++ l) u = lookupTok l u := by
  induction m with
  | nil => rfl
  | cons p m' ih =>
    by_cases hp : p.1 = u
    · rw [lookupTok, if_pos hp] at h
      cases h
    · rw [lookupTok, if_neg hp] at h
      simpa [lookupTok, hp] using ih h

theorem lookupTok_map_ne (m : List (Token × Id)) (t : Token) (i : Id) (u : Token)
    (hu : u ≠ t) :
    lookupTok (m.map (fun p => if p.1 = t then (t, i) else p)) u = lookupTok m u := by
  induction m with
  | nil => rfl
  | cons p m' ih =>
    by_cases hp : p.1 = t
    · have h1 : ¬ t = u := fun hh => hu hh.symm
      have h2 : ¬ p.1 = u := fun hh => hu ((hp.symm.trans hh).symm)
      simp only [List.map_cons, if_pos hp, lookupTok, if_neg h1, if_neg h2]
      exact ih
    · simp only [List.map_cons, if_neg hp, lookupTok]
      by_cases h2 : p.1 = u
      · rw [if_pos h2, if_pos h2]
      · rw [if_neg h2, if_neg h2]
        exact ih

theorem lookupTok_map_eq (m : List (Token × Id)) (t : Token) (i : Id)
    (hs : (lookupTok m t).isSome) :
    lookupTok (m.map (fun p => if p.1 = t then (t, i) else p)) t = some i := by
  induction m with
  | nil => simp [lookupTok] at hs
  | cons p m' ih =>
    by_cases hp : p.1 = t
    · simp [List.map_cons, if_pos hp, lookupTok]
    · rw [lookupTok, if_neg hp] at hs
      simp only [List.map_cons, if_neg hp, lookupTok, if_neg hp]
      exact ih hs

theorem lookupTok_mapAssign (m : List (Token × Id)) (t : Token) (i : Id) (u : Token) :
    lookupTok (mapAssign m t i) u = if u = t then some i else lookupTok m u := by
  unfold mapAssign
  by_cases hs : (lookupTok m t).isSome
  · rw [if_pos hs]
    by_cases hu : u = t
    · subst hu
      rw [if_pos rfl]
      exact lookupTok_map_eq m u i hs
    · rw [if_neg hu]
      exact lookupTok_map_ne m t i u hu
  · rw [if_neg hs]
    have hn : lookupTok m t = none := by
      cases hml : lookupTok m t with
      | none => rfl
      | some w => rw [hml] at hs; simp at hs
    by_cases hu : u = t
    · subst hu
      rw [if_pos rfl, lookupTok_append_none hn]
      simp [lookupTok]
    · rw [if_neg hu]
      cases hl : lookupTok m u with
      | some j => exact lookupTok_append_some hl
      | none =>
        rw [lookupTok_append_none hl]
        have h1 : ¬ t = u := fun hh => hu hh.symm
        simp [lookupTok, h1]

theorem findReg_invalidateAll (r : Registry) (u : Token) :
    findReg (invalidateAll r) u =
      (findReg r u).map (fun e => { e with validated := false, hasSipr := false }) := by
  induction r with
  | nil => rfl
  | cons p r' ih =>
    by_cases h : p.1 = u
    · simp [invalidateAll, findReg, h]
    · simp [invalidateAll, findReg, h]
      simpa [invalidateAll] using ih

theorem findReg_replaceEntry (r : Registry) (t : Token) (e : Entry) :
    findReg (replaceEntry r t e) t = (findReg r t).map (fun _ => e) := by
  induction r with
  | nil => rfl
  | cons p r' ih =>
    by_cases h : p.1 = t
    · simp [replaceEntry, findReg, h]
    · simp [replaceEntry, findReg, h]
      simpa [replaceEntry] using ih

theorem findReg_append_none {r : Registry} {u : Token}
    (h : findReg r u = none) (l : Registry) :
    findReg (r ++ l) u = findReg l u := by
  induction r with
  | nil => rfl
  | cons p r' ih =>
    by_cases hp : p.1 = u
    · rw [findReg, if_pos hp] at h
      cases h
    · rw [findReg, if_neg hp] at h
      simpa [findReg, hp] using ih h

theorem mem_invalidateAll {r : Registry} {p : Token × Entry}
    (h : p ∈ invalidateAll r) : p.2.validated = false ∧ p.2.hasSipr = false := by
  unfold invalidateAll at h
  obtain ⟨q, _, hq⟩ := List.mem_map.mp h
  rw [← hq]
  exact ⟨rfl, rfl⟩

end CppDiFactory

namespace CppDiFactory

/-! Frame lemmas for validation: only _validated and _hasSiprDependency
change; bindings and weak pointers are untouched. -/

theorem validateDepsAux_vframe (v : Token → Registry → Registry × Except DiError Bool)
    (hv : ∀ d r, vframe (v d r).1 = vframe r) :
    ∀ deps flagIn r, vframe (validateDepsAux v deps flagIn r).1 = vframe r := by
  intro deps
  induction deps with
  | nil => intro flagIn r; rfl
  | cons d rest ih =>
    intro flagIn r
    rcases hvd : v d r with ⟨r', res⟩
    have h1 : vframe r' = vframe r := by rw [← hv d r, hvd]
    cases res with
    | error e =>
      simp only [validateDepsAux, hvd]
      exact h1
    | ok f =>
      simp only [validateDepsAux, hvd]
      rw [ih f r', h1]

theorem isValidW_vframe (v : Token → Registry → Registry × Except DiError Bool)
    (hv : ∀ d r, vframe (v d r).1 = vframe r) :
    ∀ k flagIn r, vframe (isValidW v k flagIn r).1 = vframe r := by
  intro k flagIn r
  cases k with
  | classReg deps => exact validateDepsAux_vframe v hv deps flagIn r
  | instanceReg i => rfl
  | singletonReg deps =>
    rcases h : validateDepsAux v deps flagIn r with ⟨r', res⟩
    have h1 : vframe r' = vframe r := by
      rw [← validateDepsAux_vframe v hv deps flagIn r, h]
    cases res with
    | error e => simp only [isValidW, h]; exact h1
    | ok f =>
      cases f with
      | false => simp only [isValidW, h, Bool.false_eq_true, if_false]; exact h1
      | true => simp only [isValidW, h, if_true]; exact h1
  | siprReg deps =>
    rcases h : validateDepsAux v deps flagIn r with ⟨r', res⟩
    have h1 : vframe r' = vframe r := by
      rw [← validateDepsAux_vframe v hv deps flagIn r, h]
    cases res with
    | error e => simp only [isValidW, h]; exact h1
    | ok f => simp only [isValidW, h]; exact h1
  | iparReg => rfl
  | interfaceReg tgt => exact hv tgt r

theorem validateTok_vframe :
    ∀ fuel root t r, vframe (validateTok fuel root t r).1 = vframe r := by
  intro fuel
  induction fuel with
  | zero => intro root t r; rfl
  | succ f ih =>
    intro root t r
    cases hf : findReg r t with
    | none => simp [validateTok, hf]
    | some e =>
      by_cases hroot : t = root
      · subst hroot
        simp [validateTok, hf]
      · by_cases hval : e.validated
        · simp [validateTok, hf, hroot, hval]
        · rcases hiv : isValidW (fun d r' => validateTok f root d r') e.kind e.hasSipr r
            with ⟨r', res⟩
          have h1 : vframe r' = vframe r := by
            rw [← isValidW_vframe (fun d r' => validateTok f root d r')
              (fun d r0 => ih root d r0) e.kind e.hasSipr r, hiv]
          cases res with
          | error er =>
            simp only [validateTok, hf, hroot, if_false, hval, hiv]
            simpa using h1
          | ok flag =>
            simp only [validateTok, hf, hroot, if_false, hval, hiv]
            simpa [vframe_setValidated] using h1

theorem validateRoot_vframe :
    ∀ fuel t r, vframe (validateRoot fuel t r).1 = vframe r := by
  intro fuel t r
  cases fuel with
  | zero => rfl
  | succ f =>
    cases hf : findReg r t with
    | none => simp [validateRoot, hf]
    | some e =>
      by_cases hval : e.validated
      · simp [validateRoot, hf, hval]
      · rcases hiv : isValidW (fun d r' => validateTok f t d r') e.kind e.hasSipr r
          with ⟨r', res⟩
        have h1 : vframe r' = vframe r := by
          rw [← isValidW_vframe (fun d r' => validateTok f t d r')
            (fun d r0 => validateTok_vframe f t d r0) e.kind e.hasSipr r, hiv]
        cases res with
        | error er =>
          simp only [validateRoot, hf, hval, hiv]
          simpa using h1
        | ok flag =>
          simp only [validateRoot, hf, hval, hiv]
          simpa [vframe_setValidated] using h1

theorem validateAllGo_vframe (fuel : Nat) :
    ∀ ts r, vframe (validateAllGo fuel ts r).1 = vframe r := by
  intro ts
  induction ts with
  | nil => intro r; rfl
  | cons t ts' ih =>
    intro r
    rcases hv : validateRoot fuel t r with ⟨r', res⟩
    have h1 : vframe r' = vframe r := by rw [← validateRoot_vframe fuel t r, hv]
    cases res with
    | error e => simp only [validateAllGo, hv]; exact h1
    | ok u => simp only [validateAllGo, hv]; rw [ih r', h1]

theorem validateAll_vframe (fuel : Nat) (r : Registry) :
    vframe (validateAll fuel r).1 = vframe r := by
  unfold validateAll
  exact validateAllGo_vframe fuel (r.map (fun p => p.1)) r

/-! Frame lemmas for production: only singleton weak pointers change in
the registry, and the counter never decreases. -/

theorem produceDepsAux_pframe (p : Token → PState → PState × Except DiError Id)
    (hp : ∀ d st, pframe ((p d st).1).reg = pframe st.reg) :
    ∀ deps st, pframe ((produceDepsAux p deps st).1).reg = pframe st.reg := by
  intro deps
  induction deps with
  | nil => intro st; rfl
  | cons d rest ih =>
    intro st
    rcases hd : p d st with ⟨st', res⟩
    have h1 : pframe st'.reg = pframe st.reg := by rw [← hp d st, hd]
    cases res with
    | error e => simp only [produceDepsAux, hd]; exact h1
    | ok i => simp only [produceDepsAux, hd]; rw [ih st', h1]

theorem produceTok_pframe (alive : Id → Bool) :
    ∀ fuel t st, pframe ((produceTok alive fuel t st).1).reg = pframe st.reg := by
  intro fuel
  induction fuel with
  | zero => intro t st; rfl
  | succ f ih =>
    intro t st
    cases hf : findReg st.reg t with
    | none => simp [produceTok, hf]
    | some e =>
      cases hk : e.kind with
      | classReg deps =>
        rcases hd : produceDepsAux (fun d s => produceTok alive f d s) deps st with ⟨st', res⟩
        have h1 : pframe st'.reg = pframe st.reg := by
          rw [← produceDepsAux_pframe _ (fun d s => ih d s) deps st, hd]
        cases res with
        | error er => simp only [produceTok, hf, hk, hd]; exact h1
        | ok i => simp only [produceTok, hf, hk, hd]; exact h1
      | instanceReg inst => simp [produceTok, hf, hk]
      | singletonReg deps =>
        cases hw : liveWeak alive e.weakInst with
        | some i => simp [produceTok, hf, hk, hw]
        | none =>
          rcases hd : produceDepsAux (fun d s => produceTok alive f d s) deps st with ⟨st', res⟩
          have h1 : pframe st'.reg = pframe st.reg := by
            rw [← produceDepsAux_pframe _ (fun d s => ih d s) deps st, hd]
          cases res with
          | error er => simp only [produceTok, hf, hk, hw, hd]; exact h1
          | ok i =>
            simp only [produceTok, hf, hk, hw, hd]
            rw [pframe_setWeak, h1]
      | siprReg deps =>
        cases hl : lookupTok st.sess t with
        | some i => simp [produceTok, hf, hk, hl]
        | none =>
          rcases hd : produceDepsAux (fun d s => produceTok alive f d s) deps st with ⟨st', res⟩
          have h1 : pframe st'.reg = pframe st.reg := by
            rw [← produceDepsAux_pframe _ (fun d s => ih d s) deps st, hd]
          cases res with
          | error er => simp only [produceTok, hf, hk, hl, hd]; exact h1
          | ok i => simp only [produceTok, hf, hk, hl, hd]; exact h1
      | iparReg =>
        cases hl : lookupTok st.sess t with
        | some i => simp [produceTok, hf, hk, hl]
        | none => simp [produceTok, hf, hk, hl]
      | interfaceReg tgt =>
        rcases hd : produceTok alive f tgt st with ⟨st', res⟩
        have h1 : pframe st'.reg = pframe st.reg := by rw [← ih tgt st, hd]
        cases res with
        | error er => simp only [produceTok, hf, hk, hd]; exact h1
        | ok i => simp only [produceTok, hf, hk, hd]; exact h1

theorem produceDepsAux_ctr (p : Token → PState → PState × Except DiError Id)
    (hp : ∀ d st, st.ctr ≤ ((p d st).1).ctr) :
    ∀ deps st, st.ctr ≤ ((produceDepsAux p deps st).1).ctr := by
  intro deps
  induction deps with
  | nil => intro st; exact le_rfl
  | cons d rest ih =>
    intro st
    rcases hd : p d st with ⟨st', res⟩
    have h1 : st.ctr ≤ st'.ctr := by have := hp d st; rw [hd] at this; exact this
    cases res with
    | error e => simp only [produceDepsAux, hd]; exact h1
    | ok i => simp only [produceDepsAux, hd]; exact le_trans h1 (ih st')

theorem produceTok_ctr (alive : Id → Bool) :
    ∀ fuel t st, st.ctr ≤ ((produceTok alive fuel t st).1).ctr := by
  intro fuel
  induction fuel with
  | zero => intro t st; exact le_rfl
  | succ f ih =>
    intro t st
    cases hf : findReg st.reg t with
    | none => simp [produceTok, hf]
    | some e =>
      cases hk : e.kind with
      | classReg deps =>
        rcases hd : produceDepsAux (fun d s => produceTok alive f d s) deps st with ⟨st', res⟩
        have h1 : st.ctr ≤ st'.ctr := by
          have := produceDepsAux_ctr _ (fun d s => ih d s) deps st; rw [hd] at this; exact this
        cases res with
        | error er => simp only [produceTok, hf, hk, hd]; exact h1
        | ok i =>
          simp only [produceTok, hf, hk, hd]
          exact le_trans h1 (Nat.le_succ _)
      | instanceReg inst => simp [produceTok, hf, hk]
      | singletonReg deps =>
        cases hw : liveWeak alive e.weakInst with
        | some i => simp [produceTok, hf, hk, hw]
        | none =>
          rcases hd : produceDepsAux (fun d s => produceTok alive f d s) deps st with ⟨st', res⟩
          have h1 : st.ctr ≤ st'.ctr := by
            have := produceDepsAux_ctr _ (fun d s => ih d s) deps st; rw [hd] at this; exact this
          cases res with
          | error er => simp only [produceTok, hf, hk, hw, hd]; exact h1
          | ok i =>
            simp only [produceTok, hf, hk, hw, hd]
            exact le_trans h1 (Nat.le_succ _)
      | siprReg deps =>
        cases hl : lookupTok st.sess t with
        | some i => simp [produceTok, hf, hk, hl]
        | none =>
          rcases hd : produceDepsAux (fun d s => produceTok alive f d s) deps st with ⟨st', res⟩
          have h1 : st.ctr ≤ st'.ctr := by
            have := produceDepsAux_ctr _ (fun d s => ih d s) deps st; rw [hd] at this; exact this
          cases res with
          | error er => simp only [produceTok, hf, hk, hl, hd]; exact h1
          | ok i =>
            simp only [produceTok, hf, hk, hl, hd]
            exact le_trans h1 (Nat.le_succ _)
      | iparReg =>
        cases hl : lookupTok st.sess t with
        | some i => simp [produceTok, hf, hk, hl]
        | none => simp [produceTok, hf, hk, hl]
      | interfaceReg tgt =>
        rcases hd : produceTok alive f tgt st with ⟨st', res⟩
        have h1 : st.ctr ≤ st'.ctr := by have := ih tgt st; rw [hd] at this; exact this
        cases res with
        | error er => simp only [produceTok, hf, hk, hd]; exact h1
        | ok i => simp only [produceTok, hf, hk, hd]; exact h1

end CppDiFactory

namespace CppDiFactory

/-! Session lemmas: existing per-request bindings persist, and a new
binding can only be created for a token whose rank does not exceed the
rank of the token being produced (on an acyclic registry).  The rank
bound is what rules out a nested re-insertion for the same SIPR token:
its own dependencies all have strictly smaller rank. -/

theorem produceDepsAux_sess (p : Token → PState → PState × Except DiError Id)
    (rank : Token → Nat)
    (hpf : ∀ d st, pframe ((p d st).1).reg = pframe st.reg)
    (hp : ∀ d st, RankOK rank st.reg →
      (∀ u j, lookupTok st.sess u = some j → lookupTok ((p d st).1).sess u = some j) ∧
      (∀ u j, lookupTok st.sess u = none → lookupTok ((p d st).1).sess u = some j →
        rank u ≤ rank d)) :
    ∀ deps st, RankOK rank st.reg →
      (∀ u j, lookupTok st.sess u = some j →
        lookupTok ((produceDepsAux p deps st).1).sess u = some j) ∧
      (∀ u j, lookupTok st.sess u = none →
        lookupTok ((produceDepsAux p deps st).1).sess u = some j →
        ∃ d ∈ deps, rank u ≤ rank d) := by
  intro deps
  induction deps with
  | nil =>
    intro st _
    refine ⟨fun u j h => h, fun u j hn hs => ?_⟩
    simp only [produceDepsAux] at hs
    rw [hn] at hs
    cases hs
  | cons d rest ih =>
    intro st h
    rcases hd : p d st with ⟨st1, res⟩
    obtain ⟨m1, b1⟩ := hp d st h
    rw [hd] at m1 b1
    cases res with
    | error e =>
      simp only [produceDepsAux, hd]
      exact ⟨m1, fun u j hn hs => ⟨d, List.mem_cons_self d rest, b1 u j hn hs⟩⟩
    | ok i =>
      have h1 : RankOK rank st1.reg := by
        have hsh := hpf d st
        rw [hd] at hsh
        exact RankOK_transport (shape_eq_of_pframe hsh).symm h
      obtain ⟨m2, b2⟩ := ih st1 h1
      simp only [produceDepsAux, hd]
      refine ⟨fun u j hs => m2 u j (m1 u j hs), fun u j hn hs => ?_⟩
      cases hmid : lookupTok st1.sess u with
      | some j' => exact ⟨d, List.mem_cons_self d rest, b1 u j' hn hmid⟩
      | none =>
        obtain ⟨x, hx, hxr⟩ := b2 u j hmid hs
        exact ⟨x, List.mem_cons_of_mem d hx, hxr⟩

theorem produceTok_sess (alive : Id → Bool) (rank : Token → Nat) :
    ∀ fuel t st, RankOK rank st.reg →
      (∀ u j, lookupTok st.sess u = some j →
        lookupTok ((produceTok alive fuel t st).1).sess u = some j) ∧
      (∀ u j, lookupTok st.sess u = none →
        lookupTok ((produceTok alive fuel t st).1).sess u = some j →
        rank u ≤ rank t) := by
  intro fuel
  induction fuel with
  | zero =>
    intro t st _
    refine ⟨fun u j h => h, fun u j hn hs => ?_⟩
    simp only [produceTok] at hs
    rw [hn] at hs
    cases hs
  | succ f ih =>
    intro t st h
    cases hf : findReg st.reg t with
    | none =>
      have hred : produceTok alive (f + 1) t st = (st, .error .unregisteredType) := by
        simp only [produceTok, hf]
      rw [hred]
      refine ⟨fun u j hs => hs, fun u j hn hs => ?_⟩
      rw [hn] at hs
      cases hs
    | some e =>
      have hedge : ∀ x ∈ entryDeps e.kind, rank x < rank t := h t e hf
      cases hk : e.kind with
      | classReg deps =>
        have hedge' : ∀ x ∈ deps, rank x < rank t := by rw [hk] at hedge; exact hedge
        obtain ⟨m1, b1⟩ :=
          produceDepsAux_sess _ rank (fun d s => produceTok_pframe alive f d s)
            (fun d s hs => ih d s hs) deps st h
        rcases hd : produceDepsAux (fun d s => produceTok alive f d s) deps st with ⟨st1, res⟩
        rw [hd] at m1 b1
        cases res with
        | error er =>
          have hred : produceTok alive (f + 1) t st = (st1, .error er) := by
            simp only [produceTok, hf, hk, hd]
          rw [hred]
          exact ⟨m1, fun u j hn hs => by
            obtain ⟨x, hx, hxr⟩ := b1 u j hn hs
            exact le_of_lt (lt_of_le_of_lt hxr (hedge' x hx))⟩
        | ok i =>
          have hred : produceTok alive (f + 1) t st =
              ({ st1 with
                  ctr := st1.ctr + 1,
                  trace := st1.trace ++ [(t, st1.ctr)] }, .ok st1.ctr) := by
            simp only [produceTok, hf, hk, hd]
          rw [hred]
          exact ⟨m1, fun u j hn hs => by
            obtain ⟨x, hx, hxr⟩ := b1 u j hn hs
            exact le_of_lt (lt_of_le_of_lt hxr (hedge' x hx))⟩
      | instanceReg inst =>
        have hred : produceTok alive (f + 1) t st =
            ({ st with trace := st.trace ++ [(t, inst)] }, .ok inst) := by
          simp only [produceTok, hf, hk]
        rw [hred]
        refine ⟨fun u j hs => hs, fun u j hn hs => ?_⟩
        rw [hn] at hs
        cases hs
      | singletonReg deps =>
        have hedge' : ∀ x ∈ deps, rank x < rank t := by rw [hk] at hedge; exact hedge
        cases hw : liveWeak alive e.weakInst with
        | some i =>
          have hred : produceTok alive (f + 1) t st =
              ({ st with trace := st.trace ++ [(t, i)] }, .ok i) := by
            simp only [produceTok, hf, hk, hw]
          rw [hred]
          refine ⟨fun u j hs => hs, fun u j hn hs => ?_⟩
          rw [hn] at hs
          cases hs
        | none =>
          obtain ⟨m1, b1⟩ :=
            produceDepsAux_sess _ rank (fun d s => produceTok_pframe alive f d s)
              (fun d s hs => ih d s hs) deps st h
          rcases hd : produceDepsAux (fun d s => produceTok alive f d s) deps st with ⟨st1, res⟩
          rw [hd] at m1 b1
          cases res with
          | error er =>
            have hred : produceTok alive (f + 1) t st = (st1, .error er) := by
              simp only [produceTok, hf, hk, hw, hd]
            rw [hred]
            exact ⟨m1, fun u j hn hs => by
              obtain ⟨x, hx, hxr⟩ := b1 u j hn hs
              exact le_of_lt (lt_of_le_of_lt hxr (hedge' x hx))⟩
          | ok i =>
            have hred : produceTok alive (f + 1) t st =
                ({ st1 with
                    reg := setWeak st1.reg t st1.ctr,
                    ctr := st1.ctr + 1,
                    trace := st1.trace ++ [(t, st1.ctr)] }, .ok st1.ctr) := by
              simp only [produceTok, hf, hk, hw, hd]
            rw [hred]
            exact ⟨m1, fun u j hn hs => by
              obtain ⟨x, hx, hxr⟩ := b1 u j hn hs
              exact le_of_lt (lt_of_le_of_lt hxr (hedge' x hx))⟩
      | siprReg deps =>
        have hedge' : ∀ x ∈ deps, rank x < rank t := by rw [hk] at hedge; exact hedge
        cases hl : lookupTok st.sess t with
        | some i =>
          have hred : produceTok alive (f + 1) t st =
              ({ st with trace := st.trace ++ [(t, i)] }, .ok i) := by
            simp only [produceTok, hf, hk, hl]
          rw [hred]
          refine ⟨fun u j hs => hs, fun u j hn hs => ?_⟩
          rw [hn] at hs
          cases hs
        | none =>
          obtain ⟨m1, b1⟩ :=
            produceDepsAux_sess _ rank (fun d s => produceTok_pframe alive f d s)
              (fun d s hs => ih d s hs) deps st h
          rcases hd : produceDepsAux (fun d s => produceTok alive f d s) deps st with ⟨st1, res⟩
          rw [hd] at m1 b1
          cases res with
          | error er =>
            have hred : produceTok alive (f + 1) t st = (st1, .error er) := by
              simp only [produceTok, hf, hk, hl, hd]
            rw [hred]
            exact ⟨m1, fun u j hn hs => by
              obtain ⟨x, hx, hxr⟩ := b1 u j hn hs
              exact le_of_lt (lt_of_le_of_lt hxr (hedge' x hx))⟩
          | ok i =>
            have hred : produceTok alive (f + 1) t st =
                ({ st1 with
                    sess := mapAssign st1.sess t st1.ctr,
                    ctr := st1.ctr + 1,
                    trace := st1.trace ++ [(t, st1.ctr)] }, .ok st1.ctr) := by
              simp only [produceTok, hf, hk, hl, hd]
            rw [hred]
            constructor
            · intro u j hs
              have hut : ¬ u = t := by
                intro huu
                rw [huu, hl] at hs
                cases hs
              show lookupTok (mapAssign st1.sess t st1.ctr) u = some j
              rw [lookupTok_mapAssign, if_neg hut]
              exact m1 u j hs
            · intro u j hn hs
              by_cases hut : u = t
              · rw [hut]
              · have hs' : lookupTok (mapAssign st1.sess t st1.ctr) u = some j := hs
                rw [lookupTok_mapAssign, if_neg hut] at hs'
                obtain ⟨x, hx, hxr⟩ := b1 u j hn hs'
                exact le_of_lt (lt_of_le_of_lt hxr (hedge' x hx))
      | iparReg =>
        cases hl : lookupTok st.sess t with
        | some i =>
          have hred : produceTok alive (f + 1) t st =
              ({ st with trace := st.trace ++ [(t, i)] }, .ok i) := by
            simp only [produceTok, hf, hk, hl]
          rw [hred]
          refine ⟨fun u j hs => hs, fun u j hn hs => ?_⟩
          rw [hn] at hs
          cases hs
        | none =>
          have hred : produceTok alive (f + 1) t st = (st, .error .missingExternalInstance) := by
            simp only [produceTok, hf, hk, hl]
          rw [hred]
          refine ⟨fun u j hs => hs, fun u j hn hs => ?_⟩
          rw [hn] at hs
          cases hs
      | interfaceReg tgt =>
        have hedge' : rank tgt < rank t := by
          rw [hk] at hedge
          exact hedge tgt (List.mem_singleton_self tgt)
        obtain ⟨m1, b1⟩ := ih tgt st h
        rcases hd : produceTok alive f tgt st with ⟨st1, res⟩
        rw [hd] at m1 b1
        cases res with
        | error er =>
          have hred : produceTok alive (f + 1) t st = (st1, .error er) := by
            simp only [produceTok, hf, hk, hd]
          rw [hred]
          exact ⟨m1, fun u j hn hs => le_of_lt (lt_of_le_of_lt (b1 u j hn hs) hedge')⟩
        | ok i =>
          have hred : produceTok alive (f + 1) t st =
              ({ st1 with trace := st1.trace ++ [(t, i)] }, .ok i) := by
            simp only [produceTok, hf, hk, hd]
          rw [hred]
          exact ⟨m1, fun u j hn hs => le_of_lt (lt_of_le_of_lt (b1 u j hn hs) hedge')⟩

end CppDiFactory

namespace CppDiFactory

/-! The production invariant Inv and its preservation. -/

theorem findReg_kind_of_shape {r s : Registry} (h : shape r = shape s) {t : Token}
    {e : Entry} (he : findReg s t = some e) :
    ∃ e1, findReg r t = some e1 ∧ e1.kind = e.kind := by
  have hc := findReg_kind_congr h t
  rw [he] at hc
  cases hr : findReg r t with
  | none => rw [hr] at hc; cases hc
  | some e1 =>
    rw [hr] at hc
    simp only [Option.map_some', Option.some.injEq] at hc
    exact ⟨e1, rfl, hc⟩

theorem Inv_refl (a : PState) : Inv a a :=
  ⟨rfl, le_rfl, fun _ _ h => h, fun _ _ h => Or.inl h, fun _ h => h, fun _ _ _ h => Or.inl h⟩

theorem Inv_trans {a b c : PState} (hab : Inv a b) (hbc : Inv b c) : Inv a c := by
  obtain ⟨p1, c1, m1, f1, t1, s1⟩ := hab
  obtain ⟨p2, c2, m2, f2, t2, s2⟩ := hbc
  refine ⟨p2.trans p1, le_trans c1 c2, fun u j h => m2 u j (m1 u j h), ?_, fun ev h => t2 ev (t1 ev h), ?_⟩
  · intro u j h
    cases f2 u j h with
    | inl hb =>
      cases f1 u j hb with
      | inl ha => exact Or.inl ha
      | inr hr => exact Or.inr ⟨hr.1, lt_of_lt_of_le hr.2 c2⟩
    | inr hr => exact Or.inr ⟨le_trans c1 hr.1, hr.2⟩
  · intro u j hs h
    have hsb : SiprTok b.reg u := SiprTok_transport (shape_eq_of_pframe p1).symm hs
    cases s2 u j hsb h with
    | inl hb =>
      cases s1 u j hs hb with
      | inl ha => exact Or.inl ha
      | inr hr => exact Or.inr (m2 u j hr)
    | inr hr => exact Or.inr hr

theorem Inv_trace (st : PState) (t : Token) (i : Id)
    (h : ¬ SiprTok st.reg t ∨ lookupTok st.sess t = some i) :
    Inv st { st with trace := st.trace ++ [(t, i)] } := by
  refine ⟨rfl, le_rfl, fun _ _ h => h, fun _ _ h => Or.inl h,
    fun ev hm => List.mem_append_left _ hm, ?_⟩
  intro u j hs hm
  rcases List.mem_append.mp hm with hm | hm
  · exact Or.inl hm
  · rw [List.mem_singleton] at hm
    cases hm
    cases h with
    | inl hns => exact absurd hs hns
    | inr hl => exact Or.inr hl

theorem Inv_alloc (st : PState) (t : Token) (hns : ¬ SiprTok st.reg t) :
    Inv st { st with ctr := st.ctr + 1, trace := st.trace ++ [(t, st.ctr)] } := by
  refine ⟨rfl, Nat.le_succ _, fun _ _ h => h, fun _ _ h => Or.inl h,
    fun ev hm => List.mem_append_left _ hm, ?_⟩
  intro u j hs hm
  rcases List.mem_append.mp hm with hm | hm
  · exact Or.inl hm
  · rw [List.mem_singleton] at hm
    cases hm
    exact absurd hs hns

theorem Inv_build (st : PState) (t : Token) (hns : ¬ SiprTok st.reg t) :
    Inv st { st with
      reg := setWeak st.reg t st.ctr,
      ctr := st.ctr + 1,
      trace := st.trace ++ [(t, st.ctr)] } := by
  refine ⟨pframe_setWeak st.reg t st.ctr, Nat.le_succ _, fun _ _ h => h, fun _ _ h => Or.inl h,
    fun ev hm => List.mem_append_left _ hm, ?_⟩
  intro u j hs hm
  rcases List.mem_append.mp hm with hm | hm
  · exact Or.inl hm
  · rw [List.mem_singleton] at hm
    cases hm
    exact absurd hs hns

theorem Inv_insert (st : PState) (t : Token) (hl : lookupTok st.sess t = none) :
    Inv st { st with
      sess := mapAssign st.sess t st.ctr,
      ctr := st.ctr + 1,
      trace := st.trace ++ [(t, st.ctr)] } := by
  refine ⟨rfl, Nat.le_succ _, ?_, ?_, fun ev hm => List.mem_append_left _ hm, ?_⟩
  · intro u j h
    have hut : ¬ u = t := by
      intro huu
      rw [huu, hl] at h
      cases h
    show lookupTok (mapAssign st.sess t st.ctr) u = some j
    rw [lookupTok_mapAssign, if_neg hut]
    exact h
  · intro u j h
    have h' : lookupTok (mapAssign st.sess t st.ctr) u = some j := h
    rw [lookupTok_mapAssign] at h'
    by_cases hut : u = t
    · rw [if_pos hut] at h'
      cases h'
      exact Or.inr ⟨le_rfl, Nat.lt_succ_self _⟩
    · rw [if_neg hut] at h'
      exact Or.inl h'
  · intro u j hs hm
    rcases List.mem_append.mp hm with hm | hm
    · exact Or.inl hm
    · rw [List.mem_singleton, Prod.mk.injEq] at hm
      obtain ⟨hmu, hmj⟩ := hm
      subst hmu
      subst hmj
      refine Or.inr ?_
      show lookupTok (mapAssign st.sess u st.ctr) u = some st.ctr
      rw [lookupTok_mapAssign, if_pos rfl]

theorem produceDepsAux_inv (p : Token → PState → PState × Except DiError Id)
    (rank : Token → Nat)
    (_hpf : ∀ d st, pframe ((p d st).1).reg = pframe st.reg)
    (hp : ∀ d st, RankOK rank st.reg → Inv st (p d st).1) :
    ∀ deps st, RankOK rank st.reg → Inv st (produceDepsAux p deps st).1 := by
  intro deps
  induction deps with
  | nil => intro st _; exact Inv_refl st
  | cons d rest ih =>
    intro st h
    rcases hd : p d st with ⟨st1, res⟩
    have h1 : Inv st st1 := by have := hp d st h; rw [hd] at this; exact this
    cases res with
    | error e => simp only [produceDepsAux, hd]; exact h1
    | ok i =>
      have h2 : RankOK rank st1.reg :=
        RankOK_transport (shape_eq_of_pframe h1.1).symm h
      simp only [produceDepsAux, hd]
      exact Inv_trans h1 (ih st1 h2)

theorem produceTok_inv (alive : Id → Bool) (rank : Token → Nat) :
    ∀ fuel t st, RankOK rank st.reg → Inv st (produceTok alive fuel t st).1 := by
  intro fuel
  induction fuel with
  | zero => intro t st _; exact Inv_refl st
  | succ f ih =>
    intro t st h
    cases hf : findReg st.reg t with
    | none =>
      have hred : produceTok alive (f + 1) t st = (st, .error .unregisteredType) := by
        simp only [produceTok, hf]
      rw [hred]
      exact Inv_refl st
    | some e =>
      have hedge : ∀ x ∈ entryDeps e.kind, rank x < rank t := h t e hf
      cases hk : e.kind with
      | classReg deps =>
        rcases hd : produceDepsAux (fun d s => produceTok alive f d s) deps st with ⟨st1, res⟩
        have h1 : Inv st st1 := by
          have := produceDepsAux_inv _ rank (fun d s => produceTok_pframe alive f d s)
            (fun d s hs => ih d s hs) deps st h
          rw [hd] at this
          exact this
        cases res with
        | error er =>
          have hred : produceTok alive (f + 1) t st = (st1, .error er) := by
            simp only [produceTok, hf, hk, hd]
          rw [hred]
          exact h1
        | ok i =>
          have hred : produceTok alive (f + 1) t st =
              ({ st1 with
                  ctr := st1.ctr + 1,
                  trace := st1.trace ++ [(t, st1.ctr)] }, .ok st1.ctr) := by
            simp only [produceTok, hf, hk, hd]
          rw [hred]
          obtain ⟨e1, he1, hke1⟩ := findReg_kind_of_shape (shape_eq_of_pframe h1.1) hf
          have hns : ¬ SiprTok st1.reg t :=
            not_SiprTok he1 (fun ds hh => by rw [hke1, hk] at hh; cases hh)
          exact Inv_trans h1 (Inv_alloc st1 t hns)
      | instanceReg inst =>
        have hred : produceTok alive (f + 1) t st =
            ({ st with trace := st.trace ++ [(t, inst)] }, .ok inst) := by
          simp only [produceTok, hf, hk]
        rw [hred]
        have hns : ¬ SiprTok st.reg t :=
          not_SiprTok hf (fun ds hh => by rw [hk] at hh; cases hh)
        exact Inv_trace st t inst (Or.inl hns)
      | singletonReg deps =>
        cases hw : liveWeak alive e.weakInst with
        | some i =>
          have hred : produceTok alive (f + 1) t st =
              ({ st with trace := st.trace ++ [(t, i)] }, .ok i) := by
            simp only [produceTok, hf, hk, hw]
          rw [hred]
          have hns : ¬ SiprTok st.reg t :=
            not_SiprTok hf (fun ds hh => by rw [hk] at hh; cases hh)
          exact Inv_trace st t i (Or.inl hns)
        | none =>
          rcases hd : produceDepsAux (fun d s => produceTok alive f d s) deps st with ⟨st1, res⟩
          have h1 : Inv st st1 := by
            have := produceDepsAux_inv _ rank (fun d s => produceTok_pframe alive f d s)
              (fun d s hs => ih d s hs) deps st h
            rw [hd] at this
            exact this
          cases res with
          | error er =>
            have hred : produceTok alive (f + 1) t st = (st1, .error er) := by
              simp only [produceTok, hf, hk, hw, hd]
            rw [hred]
            exact h1
          | ok i =>
            have hred : produceTok alive (f + 1) t st =
                ({ st1 with
                    reg := setWeak st1.reg t st1.ctr,
                    ctr := st1.ctr + 1,
                    trace := st1.trace ++ [(t, st1.ctr)] }, .ok st1.ctr) := by
              simp only [produceTok, hf, hk, hw, hd]
            rw [hred]
            obtain ⟨e1, he1, hke1⟩ := findReg_kind_of_shape (shape_eq_of_pframe h1.1) hf
            have hns : ¬ SiprTok st1.reg t :=
              not_SiprTok he1 (fun ds hh => by rw [hke1, hk] at hh; cases hh)
            exact Inv_trans h1 (Inv_build st1 t hns)
      | siprReg deps =>
        have hedge' : ∀ x ∈ deps, rank x < rank t := by rw [hk] at hedge; exact hedge
        cases hl : lookupTok st.sess t with
        | some i =>
          have hred : produceTok alive (f + 1) t st =
              ({ st with trace := st.trace ++ [(t, i)] }, .ok i) := by
            simp only [produceTok, hf, hk, hl]
          rw [hred]
          exact Inv_trace st t i (Or.inr hl)
        | none =>
          rcases hd : produceDepsAux (fun d s => produceTok alive f d s) deps st with ⟨st1, res⟩
          have h1 : Inv st st1 := by
            have := produceDepsAux_inv _ rank (fun d s => produceTok_pframe alive f d s)
              (fun d s hs => ih d s hs) deps st h
            rw [hd] at this
            exact this
          cases res with
          | error er =>
            have hred : produceTok alive (f + 1) t st = (st1, .error er) := by
              simp only [produceTok, hf, hk, hl, hd]
            rw [hred]
            exact h1
          | ok i =>
            have hred : produceTok alive (f + 1) t st =
                ({ st1 with
                    sess := mapAssign st1.sess t st1.ctr,
                    ctr := st1.ctr + 1,
                    trace := st1.trace ++ [(t, st1.ctr)] }, .ok st1.ctr) := by
              simp only [produceTok, hf, hk, hl, hd]
            rw [hred]
            obtain ⟨ms, bs⟩ :=
              produceDepsAux_sess _ rank (fun d s => produceTok_pframe alive f d s)
                (fun d s hs => produceTok_sess alive rank f d s hs) deps st h
            rw [hd] at ms bs
            have hlt1 : lookupTok st1.sess t = none := by
              cases hq : lookupTok st1.sess t with
              | none => rfl
              | some j =>
                obtain ⟨x, hx, hxr⟩ := bs t j hl hq
                exact absurd (lt_of_le_of_lt hxr (hedge' x hx)) (lt_irrefl _)
            exact Inv_trans h1 (Inv_insert st1 t hlt1)
      | iparReg =>
        cases hl : lookupTok st.sess t with
        | some i =>
          have hred : produceTok alive (f + 1) t st =
              ({ st with trace := st.trace ++ [(t, i)] }, .ok i) := by
            simp only [produceTok, hf, hk, hl]
          rw [hred]
          exact Inv_trace st t i (Or.inr hl)
        | none =>
          have hred : produceTok alive (f + 1) t st = (st, .error .missingExternalInstance) := by
            simp only [produceTok, hf, hk, hl]
          rw [hred]
          exact Inv_refl st
      | interfaceReg tgt =>
        rcases hd : produceTok alive f tgt st with ⟨st1, res⟩
        have h1 : Inv st st1 := by have := ih tgt st h; rw [hd] at this; exact this
        cases res with
        | error er =>
          have hred : produceTok alive (f + 1) t st = (st1, .error er) := by
            simp only [produceTok, hf, hk, hd]
          rw [hred]
          exact h1
        | ok i =>
          have hred : produceTok alive (f + 1) t st =
              ({ st1 with trace := st1.trace ++ [(t, i)] }, .ok i) := by
            simp only [produceTok, hf, hk, hd]
          rw [hred]
          obtain ⟨e1, he1, hke1⟩ := findReg_kind_of_shape (shape_eq_of_pframe h1.1) hf
          have hns : ¬ SiprTok st1.reg t :=
            not_SiprTok he1 (fun ds hh => by rw [hke1, hk] at hh; cases hh)
          exact Inv_trans h1 (Inv_trace st1 t i (Or.inl hns))

end CppDiFactory

namespace CppDiFactory

/-! Helper lemmas for the claim theorems. -/

theorem findReg_mem {r : Registry} {t : Token} {e : Entry}
    (h : findReg r t = some e) : (t, e) ∈ r := by
  induction r with
  | nil => cases h
  | cons p r' ih =>
    by_cases hp : p.1 = t
    · rw [findReg, if_pos hp] at h
      cases h
      rw [← hp]
      exact List.mem_cons_self p r'
    · rw [findReg, if_neg hp] at h
      exact List.mem_cons_of_mem p (ih h)

/-- One unfolding step of the dependency-walk recursion for an
unvalidated class entry with a single dependency whose own walk runs
out of fuel. -/
theorem validateTok_class_one {f : Nat} {root t d : Token} {r : Registry} {e : Entry}
    (hf : findReg r t = some e) (hk : e.kind = .classReg [d]) (hv : e.validated = false)
    (hroot : ¬ t = root)
    (hrec : validateTok f root d r = (r, .error .outOfFuel)) :
    validateTok (f + 1) root t r = (r, .error .outOfFuel) := by
  simp only [validateTok, hf, if_neg hroot, hv, Bool.false_eq_true, if_false, hk,
    isValidW, validateDepsAux, hrec]

/-- Same unfolding for the walk entry point. -/
theorem validateRoot_class_one {f : Nat} {t d : Token} {r : Registry} {e : Entry}
    (hf : findReg r t = some e) (hk : e.kind = .classReg [d]) (hv : e.validated = false)
    (hrec : validateTok f t d r = (r, .error .outOfFuel)) :
    validateRoot (f + 1) t r = (r, .error .outOfFuel) := by
  simp only [validateRoot, hf, hv, Bool.false_eq_true, if_false, hk,
    isValidW, validateDepsAux, hrec]

/-- On the registry A -> B -> C -> B, the validation walks of B and C
with root A consume any amount of fuel without returning: the source
recursion never terminates. -/
theorem c2_loop : ∀ f,
    validateTok f c2A c2B c2Reg = (c2Reg, .error .outOfFuel) ∧
    validateTok f c2A c2C c2Reg = (c2Reg, .error .outOfFuel) := by
  intro f
  induction f with
  | zero => exact ⟨rfl, rfl⟩
  | succ f ih =>
    exact ⟨validateTok_class_one rfl rfl rfl (by decide) ih.2,
      validateTok_class_one rfl rfl rfl (by decide) ih.1⟩

/-- getInstance propagates a validation failure without touching the
session, the counter or the trace. -/
theorem getInstanceTop_vErr {alive : Id → Bool} {fuel : Nat} {t : Token}
    {s : List (Token × Id)} {r r1 : Registry} {c : Id} {e : DiError}
    (h : validateRoot fuel t r = (r1, .error e)) :
    getInstanceTop alive fuel t s r c = ⟨r1, c, [], .error e⟩ := by
  simp only [getInstanceTop, h]

/-- The bindings of the registry are untouched by a full getInstance
call, whatever its outcome. -/
theorem getInstanceTop_shape (alive : Id → Bool) (fuel : Nat) (t : Token)
    (s : List (Token × Id)) (r : Registry) (c : Id) :
    shape (getInstanceTop alive fuel t s r c).reg = shape r := by
  rcases hv : validateRoot fuel t r with ⟨r1, vres⟩
  have hshape1 : shape r1 = shape r := by
    have := validateRoot_vframe fuel t r
    rw [hv] at this
    exact shape_eq_of_vframe this
  cases vres with
  | error e1 => simp only [getInstanceTop, hv]; exact hshape1
  | ok u =>
    cases hm : registerForRequest r1 s [] with
    | error e2 => simp only [getInstanceTop, hv, hm]; exact hshape1
    | ok m =>
      rcases hp : produceTok alive fuel t ⟨r1, m, c, []⟩ with ⟨st, pres⟩
      have hshape2 : shape st.reg = shape r1 := by
        have := produceTok_pframe alive fuel t ⟨r1, m, c, []⟩
        rw [hp] at this
        exact shape_eq_of_pframe this
      cases pres with
      | error e3 =>
        simp only [getInstanceTop, hv, hm, hp]
        exact hshape2.trans hshape1
      | ok i =>
        simp only [getInstanceTop, hv, hm, hp]
        exact hshape2.trans hshape1

/-- In a call with no supplied instances on an acyclic registry, every
trace event of a SIPR token carries an id allocated within the call:
at least the starting counter and below the final counter. -/
theorem sipr_events_fresh (rank : Token → Nat) (alive : Id → Bool) (fuel : Nat)
    (root t : Token) (r : Registry) (c : Id) (e : Entry) (deps : List Token)
    (hrk : RankOK rank r) (hf : findReg r t = some e) (hk : e.kind = .siprReg deps) :
    ∀ i, (t, i) ∈ (getInstanceTop alive fuel root [] r c).trace →
      c ≤ i ∧ i < (getInstanceTop alive fuel root [] r c).ctr := by
  intro i hi
  rcases hv : validateRoot fuel root r with ⟨r1, vres⟩
  have hshape1 : shape r1 = shape r := by
    have := validateRoot_vframe fuel root r
    rw [hv] at this
    exact shape_eq_of_vframe this
  cases vres with
  | error e1 =>
    rw [getInstanceTop_vErr hv] at hi
    simp at hi
  | ok u =>
    rcases hp : produceTok alive fuel root ⟨r1, [], c, []⟩ with ⟨st, pres⟩
    have hInv : Inv ⟨r1, [], c, []⟩ st := by
      have := produceTok_inv alive rank fuel root ⟨r1, [], c, []⟩
        (RankOK_transport hshape1.symm hrk)
      rw [hp] at this
      exact this
    have hsipr : SiprTok r1 t := by
      obtain ⟨e1, he1, hke1⟩ := findReg_kind_of_shape hshape1 hf
      exact ⟨e1, deps, he1, by rw [hke1, hk]⟩
    have htr : (getInstanceTop alive fuel root [] r c).trace = st.trace := by
      cases pres <;> simp only [getInstanceTop, hv, registerForRequest, hp]
    have hct : (getInstanceTop alive fuel root [] r c).ctr = st.ctr := by
      cases pres <;> simp only [getInstanceTop, hv, registerForRequest, hp]
    rw [htr] at hi
    rw [hct]
    obtain ⟨_, _, _, hfresh, _, hagree⟩ := hInv
    cases hagree t i hsipr hi with
    | inl habs => simp at habs
    | inr hsess =>
      cases hfresh t i hsess with
      | inl habs => simp [lookupTok] at habs
      | inr hb => exact hb

end CppDiFactory

namespace CppDiFactory

/-- C1: the claim states that during validation the contains-
PerRequestShared flag is the logical OR across all dependencies, so
that every Singleton whose dependency closure contains a
PerRequestShared entry fails validation regardless of the order of its
declared dependencies.  The code instead assigns the flag anew on each
dependency walk (the last dependency wins): the Singleton S with
dependencies [P, C] - P per-request-shared, C a plain class - validates
successfully, while the reversed order [C, P] fails as documented.
This contradicts the claim and the engine documentation, which promises
detection of Singleton dependencies on SingleInstancePerRequest types. -/
theorem claim1_sipr_flag_overwritten :
    (validateRoot 10 c1S c1Reg).2 = .ok () ∧
    (validateAll 10 c1Reg).2 = .ok () ∧
    (validateRoot 10 c1S c1RegRev).2 = .error .illegalLifetimeNesting :=
  ⟨rfl, rfl, rfl⟩

/-- C2: the claim states that the validation walk always terminates,
failing with CyclicDependency when it re-enters an entry of the active
walk.  The code only compares entries against the root of the walk, so
on the registry A -> B, B -> C, C -> B the walk started at A recurses
forever: for every recursion budget the model exhausts its fuel instead
of reporting CyclicDependency, for validate as well as getInstance. -/
theorem claim2_validation_diverges :
    ∀ (fuel : Nat) (alive : Id → Bool) (c : Id),
      validateRoot fuel c2A c2Reg = (c2Reg, .error .outOfFuel) ∧
      getInstanceTop alive fuel c2A [] c2Reg c = ⟨c2Reg, c, [], .error .outOfFuel⟩ := by
  intro fuel alive c
  cases fuel with
  | zero => exact ⟨rfl, rfl⟩
  | succ f =>
    have h := @validateRoot_class_one f c2A c2B c2Reg (mkEntry (.classReg [c2B]))
      rfl rfl rfl (c2_loop f).1
    exact ⟨h, getInstanceTop_vErr h⟩

/-- C3 counterexample: the entry of token X is validated; registering a
fresh token Y afterwards (a fresh insert, not a replacement) leaves the
memoized verdict of X untouched, refuting the claim that every register
resets every entry to Unvalidated. -/
theorem claim3_counterexample :
    (findReg c3V c3X).map (fun e => e.validated) = some true ∧
    (findReg (addRegistration c3V c3Y (mkEntry (.classReg []))) c3X).map (fun e => e.validated) =
      some true :=
  ⟨rfl, rfl⟩

/-- C3 (amended): replacing the entry of an existing token resets
every entry to Unvalidated - including the stored entry itself,
whatever its constructor left in its cache members; a fresh insert
leaves the other entries untouched and merely appends the object as
constructed; unregister resets every remaining entry; and every
register of a value-initialized (zero-argument-constructed, hence
non-Instance) registration stores an Unvalidated entry.  No
Unvalidated-start guarantee is asserted for a freshly inserted
Instance registration, whose constructor leaves the cache members
indeterminate. -/
theorem claim3_mutation_invalidation :
    ∀ (r : Registry) (t : Token) (e : Entry),
      (hasToken r t = true →
        ∀ p ∈ addRegistration r t e, p.2.validated = false ∧ p.2.hasSipr = false) ∧
      (hasToken r t = false → addRegistration r t e = r ++ [(t, e)]) ∧
      (∀ p ∈ unregisterTok r t, p.2.validated = false ∧ p.2.hasSipr = false) ∧
      (hasToken r t = true →
        findReg (addRegistration r t e) t =
          some { e with validated := false, hasSipr := false }) ∧
      (∀ k : RegKind, (∀ i, ¬ k = .instanceReg i) →
        findReg (addRegistration r t (mkEntry k)) t = some (mkEntry k)) := by
  intro r t e
  refine ⟨?_, ?_, ?_, ?_, ?_⟩
  · intro h p hp
    unfold addRegistration at hp
    rw [if_pos h] at hp
    exact mem_invalidateAll hp
  · intro h
    unfold addRegistration
    rw [if_neg (fun hh => by rw [h] at hh; cases hh)]
  · intro p hp
    unfold unregisterTok at hp
    exact mem_invalidateAll hp
  · intro h
    unfold addRegistration
    rw [if_pos h]
    rw [findReg_invalidateAll, findReg_replaceEntry]
    have h' : (findReg r t).isSome = true := h
    obtain ⟨e0, he0⟩ := Option.isSome_iff_exists.mp h'
    rw [he0]
    rfl
  · intro k _
    unfold addRegistration
    by_cases h : hasToken r t = true
    · rw [if_pos h]
      rw [findReg_invalidateAll, findReg_replaceEntry]
      have h' : (findReg r t).isSome = true := h
      obtain ⟨e0, he0⟩ := Option.isSome_iff_exists.mp h'
      rw [he0]
      rfl
    · rw [if_neg h]
      have hn : findReg r t = none := by
        cases hfr : findReg r t with
        | none => rfl
        | some e1 => exact absurd (by rw [hasToken, hfr]; rfl) h
      rw [findReg_append_none hn]
      simp [findReg]

/-- C3 witness: the amended statement evaluated on the concrete
registry of the counterexample: a fresh insert appends unchanged, a
replacement by an Instance registration with arbitrary cache bits is
reset to Unvalidated by the invalidate loop, a register of a
value-initialized variant stores an Unvalidated entry, and the
replaced entry of the replacement case is indeed Unvalidated. -/
theorem claim3_witness :
    addRegistration c3V c3Y (mkEntry (.classReg [])) =
      c3V ++ [(c3Y, mkEntry (.classReg []))] ∧
    findReg (addRegistration c3V c3X (mkInstanceEntry 42 true true)) c3X =
      some { mkInstanceEntry 42 true true with validated := false, hasSipr := false } ∧
    findReg (addRegistration c3V c3X (mkEntry (.classReg []))) c3X =
      some (mkEntry (.classReg [])) ∧
    (c3X, mkEntry (.classReg [])).2.validated = false :=
  ⟨(claim3_mutation_invalidation c3V c3Y (mkEntry (.classReg []))).2.1 rfl,
   (claim3_mutation_invalidation c3V c3X (mkInstanceEntry 42 true true)).2.2.2.1 rfl,
   (claim3_mutation_invalidation c3V c3X (mkEntry (.classReg []))).2.2.2.2 (.classReg [])
     (fun i hh => by cases hh),
   ((claim3_mutation_invalidation c3V c3X (mkEntry (.classReg []))).1 rfl
      (c3X, mkEntry (.classReg [])) (by decide)).1⟩

/-- C6: a class depending on an externally provided token fails with
MissingExternalInstance when no instance is supplied; with a supplied
instance the call succeeds and the trace shows exactly the supplied
instance wired in; and supplying an instance for a token registered as
Instance is vetoed with IneligibleExternalSupply by checkAsParam. -/
theorem claim6_external_supply :
    (∀ (alive : Id → Bool),
      (getInstanceTop alive 10 c6C [] c6Reg 0).res = .error .missingExternalInstance) ∧
    (∀ (alive : Id → Bool),
      getInstanceTop alive 10 c6C [(c6E, 7)] c6Reg 0 =
        ⟨c6RegV, 1, [(c6E, 7), (c6C, 0)], .ok 0⟩) ∧
    (∀ (r : Registry) (m : List (Token × Id)) (t : Token) (i : Id) (e : Entry) (inst : Id),
      findReg r t = some e → e.kind = .instanceReg inst →
      registerOneForRequest r m t i = .error .ineligibleExternalSupply) := by
  refine ⟨fun _ => rfl, fun _ => rfl, ?_⟩
  intro r m t i e inst hf hk
  simp only [registerOneForRequest, hf, hk, checkAsParamOk, Bool.false_eq_true, if_false]

/-- C6 witness: the eligibility veto evaluated on a concrete Instance
registration. -/
theorem claim6_witness :
    registerOneForRequest c6RegI [] c6I 5 = .error .ineligibleExternalSupply :=
  claim6_external_supply.2.2 c6RegI [] c6I 5 (mkInstanceEntry 42 true true) 42 rfl rfl

/-- C7: the claim states that every supplied instance, for any number
of supplied instances, is recorded under its own token.  The recursive
RegisterInstanceForRequest overload forwards the first instance with
the template arguments of the remaining pack, so a call that supplies
two (or more) instances of distinct types has no viable overload and
is ill-formed; only the one-instance call records the instance under
its own token.  Both registry entries below accept request instances,
so the failure is due purely to the forwarding defect. -/
theorem claim7_variadic_ill_formed :
    registerForRequest c7Reg [(c7E, 7), (c7P, 8)] [] = .error .illFormedCall ∧
    registerForRequest c7Reg [(c7E, 7), (c7P, 8), (c7C, 9)] [] = .error .illFormedCall ∧
    registerForRequest c7Reg [(c7E, 7)] [] = .ok [(c7E, 7)] ∧
    (∀ (alive : Id → Bool),
      (getInstanceTop alive 10 c7C [(c7E, 7), (c7P, 8)] c7Reg 0).res =
        .error .illFormedCall) ∧
    (∀ (r : Registry) (m : List (Token × Id)) (t1 t2 : Token) (i1 i2 : Id),
      ¬ t1 = t2 →
      registerForRequest r [(t1, i1), (t2, i2)] m = .error .illFormedCall) := by
  refine ⟨rfl, rfl, rfl, fun _ => rfl, ?_⟩
  intro r m t1 t2 i1 i2 h
  simp only [registerForRequest, if_neg h]

/-- C7 witness: the general two-instance failure applied at the
concrete registry of the scenario. -/
theorem claim7_witness :
    registerForRequest c7Reg [(c7P, 8), (c7E, 7)] [] = .error .illFormedCall :=
  claim7_variadic_ill_formed.2.2.2.2 c7Reg [] c7P c7E 8 7 (by decide)

/-- C8: getInstance validates the requested entry before creating the
session or producing anything, so a validation failure yields exactly
the validation error with an empty trace and an unchanged counter; in
particular on the registry A -> B, B -> A both validateAll and
getInstance fail with CyclicDependency, the registry is unchanged and
no instance is constructed. -/
theorem claim8_validate_before_construct :
    (∀ (alive : Id → Bool) (fuel : Nat) (t : Token) (s : List (Token × Id))
        (r r1 : Registry) (c : Id) (e : DiError),
      validateRoot fuel t r = (r1, .error e) →
      getInstanceTop alive fuel t s r c = ⟨r1, c, [], .error e⟩) ∧
    (validateAll 10 c8Reg).2 = .error .cyclicDependency ∧
    (∀ (alive : Id → Bool) (c : Id),
      getInstanceTop alive 10 c8A [] c8Reg c = ⟨c8Reg, c, [], .error .cyclicDependency⟩) :=
  ⟨fun _ _ _ _ _ _ _ _ h => getInstanceTop_vErr h, rfl, fun _ _ => rfl⟩

/-- C8 witness: the validation-first property applied at the cyclic
registry, yielding CyclicDependency with nothing constructed. -/
theorem claim8_witness :
    getInstanceTop aliveNone 10 c8A [] c8Reg 0 = ⟨c8Reg, 0, [], .error .cyclicDependency⟩ :=
  claim8_validate_before_construct.1 aliveNone 10 c8A [] c8Reg c8Reg 0 .cyclicDependency rfl

/-- C9: after registering class A with interface alias IA and resolving
IA successfully, unregistering A makes every later validateAll and
getInstance of IA fail with UnregisteredType; the cached verdict of the
alias entry does not survive the unregister. -/
theorem claim9_unregister_invalidates :
    c9Run.res = .ok 0 ∧
    (validateAll 10 c9Unreg).2 = .error .unregisteredType ∧
    (∀ (alive : Id → Bool) (c : Id),
      (getInstanceTop alive 10 c9IA [] c9Unreg c).res = .error .unregisteredType) ∧
    (findReg c9Unreg c9IA).map (fun e => e.validated) = some false :=
  ⟨rfl, rfl, fun _ _ => rfl, rfl⟩

/-- C10: neither validation nor resolution mutates the bindings of the
registry, whether it succeeds or fails: validation preserves every
token, its registration kind and the singleton weak pointers, and
production preserves every token, its kind and the validation caches;
a whole getInstance call preserves the token-to-kind bindings. -/
theorem claim10_frame :
    (∀ (fuel : Nat) (t : Token) (r : Registry),
      vframe (validateRoot fuel t r).1 = vframe r) ∧
    (∀ (fuel : Nat) (r : Registry), vframe (validateAll fuel r).1 = vframe r) ∧
    (∀ (fuel : Nat) (root t : Token) (r : Registry),
      vframe (validateTok fuel root t r).1 = vframe r) ∧
    (∀ (alive : Id → Bool) (fuel : Nat) (t : Token) (st : PState),
      pframe ((produceTok alive fuel t st).1).reg = pframe st.reg) ∧
    (∀ (alive : Id → Bool) (fuel : Nat) (t : Token) (s : List (Token × Id))
        (r : Registry) (c : Id),
      shape (getInstanceTop alive fuel t s r c).reg = shape r) :=
  ⟨validateRoot_vframe, validateAll_vframe, validateTok_vframe,
   fun alive fuel t st => produceTok_pframe alive fuel t st,
   fun alive fuel t s r c => getInstanceTop_shape alive fuel t s r c⟩

end CppDiFactory

namespace CppDiFactory

/-- C5: at a Singleton registration whose weak pointer holds instance i,
production re-checks liveness through weak_ptr::lock on every call: if
some external holder keeps i alive, exactly i is returned and nothing
is constructed (registry, session and counter unchanged); once every
holder has released i, a successful production returns a freshly
allocated instance j (at least the current counter, hence distinct from
the previously issued i) and re-points the weak pointer at j.  The
registry state holds only the weak pointer, never an owning reference:
the outcome depends solely on the external liveness of i. -/
theorem claim5_singleton_weak_reuse (fuel : Nat) (alive : Id → Bool) (t : Token)
    (st : PState) (e : Entry) (deps : List Token) (i : Id)
    (hf : findReg st.reg t = some e) (hk : e.kind = .singletonReg deps)
    (hw : e.weakInst = some i) :
    (alive i = true →
      produceTok alive (fuel + 1) t st = ({ st with trace := st.trace ++ [(t, i)] }, .ok i)) ∧
    (alive i = false → ∀ (st' : PState) (j : Id),
      produceTok alive (fuel + 1) t st = (st', .ok j) →
      st.ctr ≤ j ∧ (i < st.ctr → ¬ j = i) ∧
      (findReg st'.reg t).map (fun e0 => e0.weakInst) = some (some j)) := by
  constructor
  · intro halive
    have hl : liveWeak alive e.weakInst = some i := by
      rw [hw]
      simp [liveWeak, halive]
    simp only [produceTok, hf, hk, hl]
  · intro halive st' j hrun
    have hl : liveWeak alive e.weakInst = none := by
      rw [hw]
      simp [liveWeak, halive]
    rcases hd : produceDepsAux (fun d s => produceTok alive fuel d s) deps st with ⟨st1, res⟩
    cases res with
    | error er =>
      have hred : produceTok alive (fuel + 1) t st = (st1, .error er) := by
        simp only [produceTok, hf, hk, hl, hd]
      rw [hred] at hrun
      rw [Prod.mk.injEq] at hrun
      cases hrun.2
    | ok u =>
      have hred : produceTok alive (fuel + 1) t st =
          ({ st1 with
              reg := setWeak st1.reg t st1.ctr,
              ctr := st1.ctr + 1,
              trace := st1.trace ++ [(t, st1.ctr)] }, .ok st1.ctr) := by
        simp only [produceTok, hf, hk, hl, hd]
      rw [hred] at hrun
      rw [Prod.mk.injEq] at hrun
      obtain ⟨hst', hj⟩ := hrun
      cases hj
      have hctr : st.ctr ≤ st1.ctr := by
        have := produceDepsAux_ctr _ (fun d s => produceTok_ctr alive fuel d s) deps st
        rw [hd] at this
        exact this
      have hpf : pframe st1.reg = pframe st.reg := by
        have := produceDepsAux_pframe _ (fun d s => produceTok_pframe alive fuel d s) deps st
        rw [hd] at this
        exact this
      obtain ⟨e1, he1, _⟩ := findReg_kind_of_shape (shape_eq_of_pframe hpf) hf
      refine ⟨hctr, fun hlt hji => absurd (hji ▸ hctr) (by exact Nat.not_le_of_lt hlt), ?_⟩
      rw [← hst']
      show (findReg (setWeak st1.reg t st1.ctr) t).map (fun e0 => e0.weakInst) = _
      rw [findReg_setWeak, he1]
      rfl

/-- C5 witness: the singleton of the concrete scenario, previously
built as instance 0: while 0 is externally held a second production
returns 0 and changes nothing; with no holders a successful production
returns the fresh instance 1 and re-points the weak pointer. -/
theorem claim5_witness :
    produceTok aliveZero 10 c5T st5a = ({ st5a with trace := [(c5T, 0)] }, .ok 0) ∧
    (st5a.ctr ≤ 1 ∧ (0 < st5a.ctr → ¬ (1 : Id) = 0) ∧
      (findReg (setWeak c5Reg1 c5T 1) c5T).map (fun e0 => e0.weakInst) = some (some 1)) :=
  ⟨(claim5_singleton_weak_reuse 9 aliveZero c5T st5a c5Entry [] 0 rfl rfl rfl).1 rfl,
   (claim5_singleton_weak_reuse 9 aliveNone c5T st5a c5Entry [] 0 rfl rfl rfl).2 rfl
     ⟨setWeak c5Reg1 c5T 1, [], 2, [(c5T, 1)]⟩ 1 rfl⟩

end CppDiFactory

namespace CppDiFactory

/-- C4: on a registry whose dependency graph is acyclic (witnessed by a
rank function, the situation in which production is reached, since
getInstance validates first), every resolution path that reaches a
PerRequestShared token within one top-level getInstance call receives
the identical instance - all trace events of that token agree, because
the first construction is cached write-once in the session - while
across two consecutive top-level calls (with no externally supplied
instances) the instances produced for that token are distinct: the
second call allocates its instance at or above the counter the first
call finished with. -/
theorem claim4_per_request_sharing :
    (∀ (rank : Token → Nat) (alive : Id → Bool) (fuel : Nat) (root t : Token)
        (supplied : List (Token × Id)) (r : Registry) (c : Id) (e : Entry)
        (deps : List Token),
      RankOK rank r → findReg r t = some e → e.kind = .siprReg deps →
      ∀ i j, (t, i) ∈ (getInstanceTop alive fuel root supplied r c).trace →
        (t, j) ∈ (getInstanceTop alive fuel root supplied r c).trace → i = j) ∧
    (∀ (rank : Token → Nat) (alive1 alive2 : Id → Bool) (f1 f2 : Nat)
        (root1 root2 t : Token) (r : Registry) (c : Id) (e : Entry) (deps : List Token)
        (o1 o2 : GInstResult),
      RankOK rank r → findReg r t = some e → e.kind = .siprReg deps →
      getInstanceTop alive1 f1 root1 [] r c = o1 →
      getInstanceTop alive2 f2 root2 [] o1.reg o1.ctr = o2 →
      ∀ i j, (t, i) ∈ o1.trace → (t, j) ∈ o2.trace → ¬ i = j) := by
  constructor
  · intro rank alive fuel root t supplied r c e deps hrk hf hk i j hi hj
    rcases hv : validateRoot fuel root r with ⟨r1, vres⟩
    cases vres with
    | error e1 =>
      rw [getInstanceTop_vErr hv] at hi
      simp at hi
    | ok u =>
      have hshape1 : shape r1 = shape r := by
        have := validateRoot_vframe fuel root r
        rw [hv] at this
        exact shape_eq_of_vframe this
      cases hm : registerForRequest r1 supplied [] with
      | error e2 =>
        have hg : getInstanceTop alive fuel root supplied r c = ⟨r1, c, [], .error e2⟩ := by
          simp only [getInstanceTop, hv, hm]
        rw [hg] at hi
        simp at hi
      | ok m =>
        rcases hp : produceTok alive fuel root ⟨r1, m, c, []⟩ with ⟨st, pres⟩
        have hInv : Inv ⟨r1, m, c, []⟩ st := by
          have := produceTok_inv alive rank fuel root ⟨r1, m, c, []⟩
            (RankOK_transport hshape1.symm hrk)
          rw [hp] at this
          exact this
        have hsipr : SiprTok r1 t := by
          obtain ⟨e1, he1, hke1⟩ := findReg_kind_of_shape hshape1 hf
          exact ⟨e1, deps, he1, by rw [hke1, hk]⟩
        have htr : (getInstanceTop alive fuel root supplied r c).trace = st.trace := by
          cases pres <;> simp only [getInstanceTop, hv, hm, hp]
        rw [htr] at hi hj
        obtain ⟨_, _, _, _, _, hagree⟩ := hInv
        have hsi : lookupTok st.sess t = some i := by
          cases hagree t i hsipr hi with
          | inl habs => simp at habs
          | inr hs => exact hs
        have hsj : lookupTok st.sess t = some j := by
          cases hagree t j hsipr hj with
          | inl habs => simp at habs
          | inr hs => exact hs
        rw [hsi] at hsj
        cases hsj
        rfl
  · intro rank alive1 alive2 f1 f2 root1 root2 t r c e deps o1 o2 hrk hf hk ho1 ho2 i j hi hj
    subst ho1
    subst ho2
    have hb1 := sipr_events_fresh rank alive1 f1 root1 t r c e deps hrk hf hk i hi
    have hsh : shape (getInstanceTop alive1 f1 root1 [] r c).reg = shape r :=
      getInstanceTop_shape alive1 f1 root1 [] r c
    obtain ⟨e2, he2, hke2⟩ := findReg_kind_of_shape hsh hf
    have hb2 := sipr_events_fresh rank alive2 f2 root2 t
      (getInstanceTop alive1 f1 root1 [] r c).reg
      (getInstanceTop alive1 f1 root1 [] r c).ctr e2 deps
      (RankOK_transport hsh.symm hrk) he2 (by rw [hke2, hk]) j hj
    intro hij
    subst hij
    exact absurd hb2.1 (Nat.not_le_of_lt hb1.2)

/-- The identity rank function witnesses acyclicity of the concrete
per-request-sharing registry. -/
theorem c4_rankOK : RankOK (fun x => x) c4Reg := by
  intro t e he d hd
  have hm := findReg_mem he
  simp only [c4Reg, List.mem_cons, List.not_mem_nil, or_false] at hm
  rcases hm with hm | hm
  · rw [Prod.mk.injEq] at hm
    obtain ⟨ht, he'⟩ := hm
    subst ht
    subst he'
    simp [mkEntry, entryDeps] at hd
  · rw [Prod.mk.injEq] at hm
    obtain ⟨ht, he'⟩ := hm
    subst ht
    subst he'
    simp only [mkEntry, entryDeps, c4P, List.mem_cons, List.not_mem_nil, or_false,
      or_self] at hd
    subst hd
    decide

/-- C4 witness: in the concrete scenario the class reaches the SIPR
token along two paths; within the first call both events carry
instance 0, and the second call produces instance 2, distinct from 0. -/
theorem claim4_witness :
    ((c4P, 0) ∈ (getInstanceTop aliveNone 10 c4R [] c4Reg 0).trace) ∧
    ((c4P, 2) ∈ (getInstanceTop aliveNone 10 c4R []
        (getInstanceTop aliveNone 10 c4R [] c4Reg 0).reg
        (getInstanceTop aliveNone 10 c4R [] c4Reg 0).ctr).trace) ∧
    (0 : Id) = 0 ∧ ¬ (0 : Id) = 2 := by
  refine ⟨by decide, by decide, ?_, ?_⟩
  · exact claim4_per_request_sharing.1 (fun x => x) aliveNone 10 c4R c4P [] c4Reg 0
      (mkEntry (.siprReg [])) [] c4_rankOK rfl rfl 0 0 (by decide) (by decide)
  · exact claim4_per_request_sharing.2 (fun x => x) aliveNone aliveNone 10 10 c4R c4R c4P
      c4Reg 0 (mkEntry (.siprReg [])) []
      (getInstanceTop aliveNone 10 c4R [] c4Reg 0)
      (getInstanceTop aliveNone 10 c4R []
        (getInstanceTop aliveNone 10 c4R [] c4Reg 0).reg
        (getInstanceTop aliveNone 10 c4R [] c4Reg 0).ctr)
      c4_rankOK rfl rfl rfl rfl 0 2 (by decide) (by decide)

end CppDiFactory
